import Mathlib

set_option maxRecDepth 10000

/-!
Verification development for the VoteGuard append-only ledger
(`src/blockchain/blockchain.js` and `src/blockchain/blockchainService.js`).

The JavaScript source is shallowly embedded:

* JSON values (the shape of every transaction and of the persisted file)
  are the inductive `Json`; `stringify` models `JSON.stringify(v)`,
  `pretty` models `JSON.stringify(v, null, 2)`, and `parse` models
  `JSON.parse` on the JSON fragment this program emits (integer numbers,
  strings without unicode escapes).
* The cryptographic primitives are abstract parameters: `H` stands for
  hex-encoded SHA-256 (`crypto.createHash('sha256')...digest('hex')`) and
  `mac` for the keyed HMAC (`crypto.createHmac('sha256', secret)`) with
  the process-wide secret already folded in.  All definitions are
  parametric in them; concrete executable witnesses instantiate them with
  a small injective-enough stand-in (`toyHash`).
* Nondeterministic platform inputs (`new Date().toISOString()`,
  `crypto.randomUUID()`, `Date.parse`, the success of `fs.writeFileSync`)
  are explicit parameters.
* The unbounded proof-of-work loop of `Block.mineBlock` is embedded with
  explicit fuel and an `Option` result.
-/

namespace VoteGuard

/-! ## JSON values -/

/-- JSON values, the universe in which the ledger stores its transactions
and its persisted file.  Object fields keep insertion order, as
JavaScript objects do. -/
inductive Json where
  | null : Json
  | bool (b : Bool) : Json
  | num (n : Int) : Json
  | str (s : String) : Json
  | arr (xs : List Json) : Json
  | obj (fields : List (String × Json)) : Json

mutual
/-- Structural equality of JSON values. -/
def beqJson : Json → Json → Bool
  | .null, .null => true
  | .bool a, .bool b => a == b
  | .num a, .num b => a == b
  | .str a, .str b => a == b
  | .arr a, .arr b => beqJsonList a b
  | .obj a, .obj b => beqJsonFields a b
  | _, _ => false

def beqJsonList : List Json → List Json → Bool
  | [], [] => true
  | a :: as, b :: bs => beqJson a b && beqJsonList as bs
  | _, _ => false

def beqJsonFields : List (String × Json) → List (String × Json) → Bool
  | [], [] => true
  | (k, v) :: as, (k2, v2) :: bs => k == k2 && beqJson v v2 && beqJsonFields as bs
  | _, _ => false
end

mutual
theorem beqJson_iff : ∀ a b, beqJson a b = true ↔ a = b
  | .null, .null => by simp [beqJson]
  | .bool a, .bool b => by simp [beqJson]
  | .num a, .num b => by simp [beqJson]
  | .str a, .str b => by simp [beqJson]
  | .arr a, .arr b => by
      simp only [beqJson, beqJsonList_iff a b, Json.arr.injEq]
  | .obj a, .obj b => by
      simp only [beqJson, beqJsonFields_iff a b, Json.obj.injEq]
  | .null, .bool _ | .null, .num _ | .null, .str _ | .null, .arr _ | .null, .obj _
  | .bool _, .null | .bool _, .num _ | .bool _, .str _ | .bool _, .arr _ | .bool _, .obj _
  | .num _, .null | .num _, .bool _ | .num _, .str _ | .num _, .arr _ | .num _, .obj _
  | .str _, .null | .str _, .bool _ | .str _, .num _ | .str _, .arr _ | .str _, .obj _
  | .arr _, .null | .arr _, .bool _ | .arr _, .num _ | .arr _, .str _ | .arr _, .obj _
  | .obj _, .null | .obj _, .bool _ | .obj _, .num _ | .obj _, .str _ | .obj _, .arr _ => by
      simp [beqJson]

theorem beqJsonList_iff : ∀ a b, beqJsonList a b = true ↔ a = b
  | [], [] => by simp [beqJsonList]
  | a :: as, b :: bs => by
      simp only [beqJsonList, Bool.and_eq_true, beqJson_iff a b, beqJsonList_iff as bs,
        List.cons.injEq]
  | [], _ :: _ => by simp [beqJsonList]
  | _ :: _, [] => by simp [beqJsonList]

theorem beqJsonFields_iff : ∀ a b, beqJsonFields a b = true ↔ a = b
  | [], [] => by simp [beqJsonFields]
  | (k, v) :: as, (k2, v2) :: bs => by
      simp only [beqJsonFields, Bool.and_eq_true, beqJson_iff v v2, beqJsonFields_iff as bs,
        List.cons.injEq, Prod.mk.injEq, beq_iff_eq]
  | [], _ :: _ => by simp [beqJsonFields]
  | _ :: _, [] => by simp [beqJsonFields]
end

instance : DecidableEq Json := fun a b =>
  decidable_of_iff (beqJson a b = true) (beqJson_iff a b)

/-- Property lookup `v[k]` on a JSON value: `none` models JavaScript
`undefined` (also the result of reading a property of a non-object). -/
def getField (j : Json) (k : String) : Option Json :=
  match j with
  | .obj fs => (fs.find? (fun f => f.1 = k)).map (·.2)
  | _ => none

/-- Optional chaining `v[k1]?.[k2]`, as in `tx.data?.electionId`. -/
def getField2 (j : Json) (k1 k2 : String) : Option Json :=
  (getField j k1).bind (fun d => getField d k2)

/-- Property assignment `v[k] = x` on a JSON object: an existing key keeps
its position, a new key is appended, exactly as in JavaScript. -/
def setFieldList (fs : List (String × Json)) (k : String) (v : Json) :
    List (String × Json) :=
  match fs with
  | [] => [(k, v)]
  | (k2, v2) :: rest =>
      if k2 = k then (k, v) :: rest else (k2, v2) :: setFieldList rest k v

def setField (j : Json) (k : String) (v : Json) : Json :=
  match j with
  | .obj fs => .obj (setFieldList fs k v)
  | other => other

/-- JavaScript truthiness of a JSON value (`!v` tests in the source). -/
def jsFalsy (j : Json) : Bool :=
  match j with
  | .null => true
  | .bool b => !b
  | .num n => n = 0
  | .str s => s = ""
  | .arr _ => false
  | .obj _ => false

/-! ## `JSON.stringify` -/

/-- String escaping inside `JSON.stringify` (quote and backslash; the
ledger never emits control characters). -/
def escapeChar (c : Char) : String :=
  if c = '"' then "\\\"" else if c = '\\' then "\\\\" else String.singleton c

def escape (s : String) : String :=
  s.data.foldl (fun acc c => acc ++ escapeChar c) ""

def quoteStr (s : String) : String := "\"" ++ escape s ++ "\""

mutual
/-- `JSON.stringify(v)`: compact canonical serialization, object fields in
insertion order. -/
def stringify : Json → String
  | .null => "null"
  | .bool b => if b then "true" else "false"
  | .num n => toString n
  | .str s => quoteStr s
  | .arr xs => "[" ++ stringifyList xs ++ "]"
  | .obj fs => String.singleton '{' ++ stringifyFields fs ++ String.singleton '}'

def stringifyList : List Json → String
  | [] => ""
  | [x] => stringify x
  | x :: y :: rest => stringify x ++ "," ++ stringifyList (y :: rest)

def stringifyFields : List (String × Json) → String
  | [] => ""
  | [(k, v)] => quoteStr k ++ ":" ++ stringify v
  | (k, v) :: f :: rest =>
      quoteStr k ++ ":" ++ stringify v ++ "," ++ stringifyFields (f :: rest)
end

def spaces (n : Nat) : String := String.mk (List.replicate n ' ')

mutual
/-- `JSON.stringify(v, null, 2)`: the pretty form written to
`blockchain_data.json`.  `ind` is the indentation of the enclosing value. -/
def pretty : Nat → Json → String
  | _, .null => "null"
  | _, .bool b => if b then "true" else "false"
  | _, .num n => toString n
  | _, .str s => quoteStr s
  | _, .arr [] => "[]"
  | ind, .arr (x :: xs) =>
      "[\n" ++ prettyItems (ind + 2) (x :: xs) ++ "\n" ++ spaces ind ++ "]"
  | _, .obj [] => String.singleton '{' ++ String.singleton '}'
  | ind, .obj (f :: fs) =>
      String.singleton '{' ++ "\n" ++ prettyFields (ind + 2) (f :: fs) ++ "\n" ++
        spaces ind ++ String.singleton '}'

def prettyItems : Nat → List Json → String
  | _, [] => ""
  | ind, [x] => spaces ind ++ pretty ind x
  | ind, x :: y :: rest =>
      spaces ind ++ pretty ind x ++ ",\n" ++ prettyItems ind (y :: rest)

def prettyFields : Nat → List (String × Json) → String
  | _, [] => ""
  | ind, [(k, v)] => spaces ind ++ quoteStr k ++ ": " ++ pretty ind v
  | ind, (k, v) :: f :: rest =>
      spaces ind ++ quoteStr k ++ ": " ++ pretty ind v ++ ",\n" ++
        prettyFields ind (f :: rest)
end

/-! ## `JSON.parse`

Modelled from the platform: a recursive-descent parser for the JSON
fragment the persistence layer emits (objects, arrays, strings with
quote/backslash escapes, integer numbers, literals).  `JSON.parse` itself
is a JavaScript builtin, not repository code. -/

def isWs (c : Char) : Bool := c = ' ' || c = '\n' || c = '\t' || c = '\r'

def skipWs : List Char → List Char
  | [] => []
  | c :: cs => if isWs c then skipWs cs else c :: cs

/-- Parse the body of a string literal after the opening quote. -/
def parseStringBody : List Char → Option (String × List Char)
  | [] => none
  | '\\' :: e :: rest => do
      let c ← match e with
        | '"' => some '"'
        | '\\' => some '\\'
        | '/' => some '/'
        | 'n' => some '\n'
        | 't' => some '\t'
        | 'r' => some '\r'
        | _ => none
      let (s, r) ← parseStringBody rest
      pure (String.singleton c ++ s, r)
  | '"' :: rest => some ("", rest)
  | c :: rest => do
      let (s, r) ← parseStringBody rest
      pure (String.singleton c ++ s, r)

def isDigit (c : Char) : Bool := '0' ≤ c && c ≤ '9'

def digitVal (c : Char) : Nat := c.toNat - '0'.toNat

def parseDigits : List Char → Nat → Nat × List Char
  | [], acc => (acc, [])
  | c :: cs, acc =>
      if isDigit c then parseDigits cs (acc * 10 + digitVal c) else (acc, c :: cs)

/-- Parse a nonnegative integer literal (at least one digit). -/
def parseNum (cs : List Char) : Option (Nat × List Char) :=
  match cs with
  | c :: _ => if isDigit c then some (parseDigits cs 0) else none
  | [] => none

/-- Members of an object after the opening brace (nonempty case); `pv`
parses one value. -/
def parseMembersAux (pv : List Char → Option (Json × List Char)) :
    Nat → List Char → Option (List (String × Json) × List Char)
  | 0, _ => none
  | fuel + 1, cs =>
      match skipWs cs with
      | '"' :: rest => do
          let (k, r1) ← parseStringBody rest
          match skipWs r1 with
          | ':' :: r2 => do
              let (v, r3) ← pv r2
              match skipWs r3 with
              | ',' :: r4 => do
                  let (fs, r5) ← parseMembersAux pv fuel r4
                  pure ((k, v) :: fs, r5)
              | '}' :: r4 => pure ([(k, v)], r4)
              | _ => none
          | _ => none
      | _ => none

/-- Items of an array after the opening bracket (nonempty case). -/
def parseItemsAux (pv : List Char → Option (Json × List Char)) :
    Nat → List Char → Option (List Json × List Char)
  | 0, _ => none
  | fuel + 1, cs => do
      let (v, r1) ← pv cs
      match skipWs r1 with
      | ',' :: r2 => do
          let (xs, r3) ← parseItemsAux pv fuel r2
          pure (v :: xs, r3)
      | ']' :: r2 => pure ([v], r2)
      | _ => none

/-- Parse one JSON value; `depth` bounds the nesting depth. -/
def parseV : Nat → List Char → Option (Json × List Char)
  | 0, _ => none
  | depth + 1, cs =>
      match skipWs cs with
      | '"' :: rest => (parseStringBody rest).map (fun p => (.str p.1, p.2))
      | '{' :: rest =>
          match skipWs rest with
          | '}' :: r2 => some (.obj [], r2)
          | cs2 => (parseMembersAux (parseV depth) (cs2.length + 1) cs2).map
              (fun p => (.obj p.1, p.2))
      | '[' :: rest =>
          match skipWs rest with
          | ']' :: r2 => some (.arr [], r2)
          | cs2 => (parseItemsAux (parseV depth) (cs2.length + 1) cs2).map
              (fun p => (.arr p.1, p.2))
      | 't' :: 'r' :: 'u' :: 'e' :: rest => some (.bool true, rest)
      | 'f' :: 'a' :: 'l' :: 's' :: 'e' :: rest => some (.bool false, rest)
      | 'n' :: 'u' :: 'l' :: 'l' :: rest => some (.null, rest)
      | '-' :: rest => (parseNum rest).map (fun p => (.num (-(p.1 : Int)), p.2))
      | cs2 => (parseNum cs2).map (fun p => (.num (p.1 : Int), p.2))

/-- `JSON.parse(s)`: `none` models a thrown `SyntaxError`. -/
def parse (s : String) : Option Json :=
  match parseV (s.length + 1) s.data with
  | some (v, rest) => if skipWs rest = [] then some v else none
  | none => none

/-! ## Merkle accumulator (`MerkleTree` in `blockchain.js`) -/

/-- One pass of the `while` loop body in `MerkleTree.computeRoot`: combine
adjacent digests (`i += 2`); for an odd tail the last digest is its own
right sibling (`right = i + 1 < hashes.length ? hashes[i + 1] : left`). -/
def pairStep (H : String → String) : List String → List String
  | [] => []
  | [x] => [H (x ++ x)]
  | x :: y :: rest => H (x ++ y) :: pairStep H rest

/-- The `while (hashes.length > 1)` loop.  `fuel` bounds the number of
passes; each pass at least halves the level, so the fuel passed at the
only call site (`length`) always suffices and the exhaustion branch is
unreachable there. -/
def reduceLevels (H : String → String) : Nat → List String → String
  | _, [] => ""
  | _, [x] => x
  | 0, x :: _ :: _ => x
  | fuel + 1, x :: y :: rest => reduceLevels H fuel (pairStep H (x :: y :: rest))

/-- `MerkleTree.computeRoot(transactions)`: SHA-256 of the literal
`'empty'` for an empty batch, otherwise the pairwise reduction of the
per-transaction leaf digests. -/
def computeRoot (H : String → String) (txs : List Json) : String :=
  if txs.isEmpty then H "empty"
  else
    let leaves := txs.map (fun tx => H (stringify tx))
    reduceLevels H leaves.length leaves

/-- `MerkleTree.verify(transaction, transactions, expectedRoot)`: a full
recomputation, ignoring the individual `transaction`. -/
def merkleVerify (H : String → String) (_transaction : Json) (txs : List Json)
    (expectedRoot : String) : Bool :=
  computeRoot H txs == expectedRoot

/-- Modelled from the spec: "repeatedly pair up adjacent digests and hash
the concatenation" — combine an even-length level two by two. -/
def specCombine (H : String → String) : List String → List String
  | x :: y :: rest => H (x ++ y) :: specCombine H rest
  | _ => []

/-- Modelled from the spec: "duplicate the last digest" — append a copy of
the last element of a level. -/
def dupLast : List String → List String
  | [] => []
  | [x] => [x, x]
  | x :: y :: rest => x :: dupLast (y :: rest)

/-- Modelled from the spec: one level of the reduction — "if a level has
an odd count, duplicate the last digest to pair with itself (do not drop
it, do not hash it alone)". -/
def specLevelUp (H : String → String) (hs : List String) : List String :=
  if hs.length % 2 = 1 then specCombine H (dupLast hs) else specCombine H hs

theorem specCombine_length (H : String → String) :
    ∀ hs, (specCombine H hs).length = hs.length / 2
  | [] => by simp [specCombine]
  | [x] => by simp [specCombine]
  | x :: y :: rest => by
      simp only [specCombine, List.length_cons, specCombine_length H rest]
      omega

theorem dupLast_length_cons :
    ∀ (x : String) (l : List String), (dupLast (x :: l)).length = l.length + 2
  | _, [] => rfl
  | x, y :: rest => by
      simp only [dupLast, List.length_cons, dupLast_length_cons y rest]

/-- Modelled from the spec: "repeatedly ... until one digest remains". -/
def specReduce (H : String → String) : List String → String
  | [] => ""
  | [x] => x
  | x :: y :: rest => specReduce H (specLevelUp H (x :: y :: rest))
termination_by hs => hs.length
decreasing_by
  simp only [specLevelUp]
  split
  · simp only [specCombine_length, dupLast_length_cons, List.length_cons]
    omega
  · simp only [specCombine_length, List.length_cons]
    omega

theorem pairStep_length (H : String → String) :
    ∀ hs, (pairStep H hs).length = (hs.length + 1) / 2
  | [] => by simp [pairStep]
  | [x] => by simp [pairStep]
  | x :: y :: rest => by
      simp only [pairStep, List.length_cons, pairStep_length H rest]
      omega

/-- The loop body of `computeRoot` implements exactly the spec's
odd-duplicating level reduction. -/
theorem pairStep_eq_specLevelUp (H : String → String) :
    ∀ hs, pairStep H hs = specLevelUp H hs
  | [] => by simp [pairStep, specLevelUp, specCombine]
  | [x] => by simp [pairStep, specLevelUp, dupLast, specCombine]
  | x :: y :: rest => by
      have ih := pairStep_eq_specLevelUp H rest
      match rest with
      | [] => simp [pairStep, specLevelUp, specCombine]
      | r0 :: r' =>
          simp only [specLevelUp] at ih ⊢
          by_cases ho : r'.length % 2 = 1
          · have h1 : ¬(r0 :: r').length % 2 = 1 := by
              simp only [List.length_cons]; omega
            have h3 : ¬(x :: y :: r0 :: r').length % 2 = 1 := by
              simp only [List.length_cons]; omega
            rw [if_neg h1] at ih
            rw [if_neg h3]
            simp only [pairStep, specCombine, ih]
          · have h1 : (r0 :: r').length % 2 = 1 := by
              simp only [List.length_cons]; omega
            have h3 : (x :: y :: r0 :: r').length % 2 = 1 := by
              simp only [List.length_cons]; omega
            rw [if_pos h1] at ih
            rw [if_pos h3]
            simp only [pairStep, dupLast, specCombine, ih]

/-- The fueled `while` loop agrees with the spec's reduction whenever the
fuel covers the level size (as it does at the call site). -/
theorem reduceLevels_eq_specReduce (H : String → String) (fuel : Nat) :
    ∀ hs : List String, hs.length ≤ fuel →
      reduceLevels H fuel hs = specReduce H hs := by
  induction fuel with
  | zero =>
      intro hs h
      match hs with
      | [] => simp [reduceLevels, specReduce]
      | x :: rest => simp at h
  | succ f ih =>
      intro hs h
      match hs with
      | [] => simp [reduceLevels, specReduce]
      | [x] => simp [reduceLevels, specReduce]
      | x :: y :: rest =>
          have hstep : reduceLevels H (f + 1) (x :: y :: rest) =
              reduceLevels H f (pairStep H (x :: y :: rest)) := rfl
          have hlen : (pairStep H (x :: y :: rest)).length ≤ f := by
            have := pairStep_length H (x :: y :: rest)
            simp only [List.length_cons] at this h ⊢
            omega
          rw [hstep, ih _ hlen, pairStep_eq_specLevelUp]
          conv_rhs => rw [specReduce]

/-! ## Blocks (`Block` in `blockchain.js`) -/

structure Block where
  index : Nat
  timestamp : String
  transactions : List Json
  previousHash : String
  merkleRoot : String
  nonce : Nat
  hash : String
deriving DecidableEq

/-- `Block.calculateHash()`: SHA-256 of
`index + previousHash + timestamp + merkleRoot + nonce` (JavaScript `+`
coerces the numbers to decimal strings). -/
def calculateHash (H : String → String) (b : Block) : String :=
  H (toString b.index ++ b.previousHash ++ b.timestamp ++ b.merkleRoot ++
    toString b.nonce)

/-- The `Block` constructor: computes the merkle root, starts at
`nonce = 0` and seals the initial hash. -/
def mkBlock (H : String → String) (index : Nat) (timestamp : String)
    (txs : List Json) (previousHash : String) : Block :=
  let b : Block :=
    { index, timestamp, transactions := txs, previousHash,
      merkleRoot := computeRoot H txs, nonce := 0, hash := "" }
  { b with hash := calculateHash H b }

/-- `'0'.repeat(difficulty)`. -/
def target (difficulty : Nat) : String := String.mk (List.replicate difficulty '0')

/-- `hash.substring(0, difficulty) === target`. -/
def powOk (difficulty : Nat) (h : String) : Bool :=
  h.take difficulty == target difficulty

/-- One iteration of the mining loop body: `this.nonce++` followed by
`this.hash = this.calculateHash()`. -/
def bumpNonce (H : String → String) (b : Block) : Block :=
  let b2 : Block := { b with nonce := b.nonce + 1 }
  { b2 with hash := calculateHash H b2 }

/-- `Block.mineBlock(difficulty)`: the unbounded `while` search embedded
with explicit fuel; `none` models a search that has not terminated within
`fuel` iterations. -/
def mineBlock (H : String → String) (difficulty : Nat) : Nat → Block → Option Block
  | fuel, b =>
      if powOk difficulty b.hash then some b
      else
        match fuel with
        | 0 => none
        | f + 1 => mineBlock H difficulty f (bumpNonce H b)

/-- Construct-and-mine, the composition used at both `new Block` call
sites (`_createGenesisBlock` and `addBlock`). -/
def sealBlock (H : String → String) (difficulty fuel : Nat) (index : Nat)
    (ts : String) (txs : List Json) (previousHash : String) : Option Block :=
  mineBlock H difficulty fuel (mkBlock H index ts txs previousHash)

/-! ## The chain (`Blockchain` in `blockchain.js`) -/

/-- `this.difficulty = 4` in the `Blockchain` constructor. -/
def defaultDifficulty : Nat := 4

/-- The synthetic genesis transaction of `_createGenesisBlock`. -/
def genesisTx (ts : String) : Json :=
  .obj [("type", .str "GENESIS"),
        ("message", .str "VoteGuard Blockchain Genesis Block"),
        ("timestamp", .str ts)]

/-- `_createGenesisBlock()`: a mined index-0 block with `previousHash`
`'0'` holding the single genesis record; the resulting chain is
`[genesis]`. -/
def createGenesisChain (H : String → String) (difficulty fuel : Nat)
    (ts1 ts2 : String) : Option (List Block) :=
  (sealBlock H difficulty fuel 0 ts1 [genesisTx ts2] "0").map (fun g => [g])

/-- `getLatestBlock()` — `this.chain[this.chain.length - 1]`;
`none` models the `undefined` read on an empty chain. -/
def getLatestBlock (chain : List Block) : Option Block := chain.getLast?

/-- `addBlock(transactions)`: seal a block at `previousBlock.index + 1`
linking `previousBlock.hash`, push it and return it.  On an empty chain
the JavaScript code throws reading `previousBlock.index`: `none`. -/
def addBlock (H : String → String) (difficulty fuel : Nat) (ts : String)
    (chain : List Block) (txs : List Json) : Option (List Block × Block) :=
  match getLatestBlock chain with
  | none => none
  | some prev =>
      (sealBlock H difficulty fuel (prev.index + 1) ts txs prev.hash).map
        (fun b => (chain ++ [b], b))

/-- Chains producible by normal operation: a freshly created genesis chain
followed by any sequence of successful `addBlock` calls. -/
inductive Reachable (H : String → String) (difficulty : Nat) : List Block → Prop where
  | genesis (fuel : Nat) (ts1 ts2 : String) (c : List Block)
      (h : createGenesisChain H difficulty fuel ts1 ts2 = some c) :
      Reachable H difficulty c
  | step (c : List Block) (txs : List Json) (fuel : Nat) (ts : String)
      (c' : List Block) (b : Block) (hc : Reachable H difficulty c)
      (h : addBlock H difficulty fuel ts c txs = some (c', b)) :
      Reachable H difficulty c'

/-! ## Chain validation (`isChainValid`) -/

/-- The four per-block checks of the `isChainValid` loop body for loop
index `i`, previous block `prev` and current block `cur`.  The
reconstructed `testBlock` (whose `nonce` and `merkleRoot` are overwritten
with the stored values before hashing) recomputes exactly
`calculateHash` of the stored fields. -/
def blockErrors (H : String → String) (difficulty : Nat) (i : Nat)
    (prev cur : Block) : List String :=
  let recalculated := calculateHash H cur
  (if cur.hash ≠ recalculated then
    ["Block " ++ toString i ++ ": Hash mismatch (stored: " ++ cur.hash ++
      ", calculated: " ++ recalculated ++ ")"] else []) ++
  (if cur.previousHash ≠ prev.hash then
    ["Block " ++ toString i ++ ": Previous hash mismatch (expected: " ++
      prev.hash ++ ", got: " ++ cur.previousHash ++ ")"] else []) ++
  (if ¬powOk difficulty cur.hash then
    ["Block " ++ toString i ++ ": Proof of Work invalid (hash does not start with " ++
      target difficulty ++ ")"] else []) ++
  (if cur.merkleRoot ≠ computeRoot H cur.transactions then
    ["Block " ++ toString i ++ ": Merkle root mismatch"] else [])

/-- The `for (let i = 1; ...)` loop of `isChainValid`, collecting the
errors of every block after the one at position `i - 1`. -/
def chainErrorsAux (H : String → String) (difficulty : Nat) :
    Nat → Block → List Block → List String
  | _, _, [] => []
  | i, prev, cur :: rest =>
      blockErrors H difficulty i prev cur ++
        chainErrorsAux H difficulty (i + 1) cur rest

/-- `isChainValid()`: `(valid, errors)` with `valid` true exactly when no
error was collected. -/
def isChainValid (H : String → String) (difficulty : Nat)
    (chain : List Block) : Bool × List String :=
  let errors :=
    match chain with
    | [] => []
    | b :: rest => chainErrorsAux H difficulty 1 b rest
  (errors.isEmpty, errors)

/-! ## Search (`searchTransactions`) -/

/-- The filter object accepted by `searchTransactions`; `none` models an
absent property. -/
structure Filter where
  type_ : Option String
  electionId : Option String
  userId : Option String
  candidateId : Option String
  receiptHash : Option String
  id : Option String

def noFilter : Filter := ⟨none, none, none, none, none, none⟩

/-- One filter clause: `if (filter.f && tx_value !== filter.f) match =
false` — a missing or empty-string (falsy) filter value is skipped. -/
def fieldFilterOk (fv : Option String) (txv : Option Json) : Bool :=
  match fv with
  | none => true
  | some s => if s = "" then true else decide (txv = some (Json.str s))

def txMatches (f : Filter) (tx : Json) : Bool :=
  fieldFilterOk f.type_ (getField tx "type") &&
  fieldFilterOk f.electionId (getField2 tx "data" "electionId") &&
  fieldFilterOk f.userId (getField2 tx "data" "userId") &&
  fieldFilterOk f.candidateId (getField2 tx "data" "candidateId") &&
  fieldFilterOk f.receiptHash (getField2 tx "data" "receiptHash") &&
  fieldFilterOk f.id (getField2 tx "data" "id")

/-- A search result: `{ ...tx, blockIndex, blockHash, blockTimestamp,
merkleRoot }`. -/
structure Hit where
  tx : Json
  blockIndex : Nat
  blockHash : String
  blockTimestamp : String
  merkleRoot : String
deriving DecidableEq

/-- `searchTransactions(filter)`: a linear scan over every transaction of
every block, in chain order. -/
def searchTransactions (chain : List Block) (f : Filter) : List Hit :=
  chain.flatMap (fun b =>
    (b.transactions.filter (txMatches f)).map
      (fun tx => ⟨tx, b.index, b.hash, b.timestamp, b.merkleRoot⟩))

/-! ## Persistence (`_saveChain`, `_verifyFileIntegrity`, `_loadChain`) -/

/-- `JSON.stringify` of a `Block` instance: its own enumerable properties
in assignment order. -/
def blockToJson (b : Block) : Json :=
  .obj [("index", .num b.index), ("timestamp", .str b.timestamp),
        ("transactions", .arr b.transactions),
        ("previousHash", .str b.previousHash),
        ("merkleRoot", .str b.merkleRoot), ("nonce", .num b.nonce),
        ("hash", .str b.hash)]

def chainToJson (chain : List Block) : Json := .arr (chain.map blockToJson)

/-- The serialized chain that gets signed: `JSON.stringify(this.chain)`. -/
def chainData (chain : List Block) : String := stringify (chainToJson chain)

/-- `_saveChain()`: the exact file content written to
`blockchain_data.json` — `JSON.stringify({ chain, signature }, null, 2)`
with `signature = HMAC(secret, JSON.stringify(chain))`. -/
def saveFile (mac : String → String) (chain : List Block) : String :=
  pretty 0 (.obj [("chain", chainToJson chain),
                  ("signature", .str (mac (chainData chain)))])

/-- `_verifyFileIntegrity(fileContent)`.  A file that does not parse (or
whose missing `chain` field makes the HMAC call throw) lands in the
`catch` and yields `false`; a falsy `signature` is the one-time upgrade
allowance and yields `true`. -/
def verifyFileIntegrity (mac : String → String) (content : String) : Bool :=
  match parse content with
  | none => false
  | some parsed =>
      match getField parsed "signature" with
      | none => true
      | some sig =>
          if jsFalsy sig then true
          else
            match getField parsed "chain" with
            | none => false
            | some cj => decide (sig = Json.str (mac (stringify cj)))

def asStr : Json → Option String
  | .str s => some s
  | _ => none

def asNat : Json → Option Nat
  | .num n => if n < 0 then none else some n.toNat
  | _ => none

def asArr : Json → Option (List Json)
  | .arr xs => some xs
  | _ => none

/-- Rehydrate one block from its parsed JSON form.  `none` marks a shape
the in-memory operations cannot work on (in JavaScript such a shape makes
the subsequent field reads misbehave and the loader fall into its
catch-all). -/
def blockFromJson (j : Json) : Option Block := do
  let index ← (getField j "index").bind asNat
  let timestamp ← (getField j "timestamp").bind asStr
  let transactions ← (getField j "transactions").bind asArr
  let previousHash ← (getField j "previousHash").bind asStr
  let merkleRoot ← (getField j "merkleRoot").bind asStr
  let nonce ← (getField j "nonce").bind asNat
  let hash ← (getField j "hash").bind asStr
  pure ⟨index, timestamp, transactions, previousHash, merkleRoot, nonce, hash⟩

def chainFromJson (j : Json) : Option (List Block) :=
  match j with
  | .arr xs => xs.mapM blockFromJson
  | _ => none

/-- `_loadChain()` for a present file (`file = some content`) or an absent
one (`none`).  Order of events as in the source: HMAC verification first
(mismatch ⇒ fresh genesis), then `data.chain || []`, then full
`isChainValid` (failure ⇒ fresh genesis). -/
def loadChain (H mac : String → String) (difficulty fuel : Nat)
    (ts1 ts2 : String) (file : Option String) : Option (List Block) :=
  match file with
  | none => createGenesisChain H difficulty fuel ts1 ts2
  | some content =>
      if verifyFileIntegrity mac content then
        match parse content with
        | none => createGenesisChain H difficulty fuel ts1 ts2
        | some data =>
            let cf := (getField data "chain").getD .null
            let cf := if jsFalsy cf then .arr [] else cf
            match chainFromJson cf with
            | none => createGenesisChain H difficulty fuel ts1 ts2
            | some blocks =>
                if (isChainValid H difficulty blocks).1 then some blocks
                else createGenesisChain H difficulty fuel ts1 ts2
      else createGenesisChain H difficulty fuel ts1 ts2

/-- Replace the character at position `k` (flip one byte of a persisted
file). -/
def mutateAt (s : String) (k : Nat) (c : Char) : String := ⟨s.data.set k c⟩

/-- Whether `fs.writeFileSync` succeeded. -/
def persisted (w : Except String Unit) : Bool :=
  match w with
  | .ok _ => true
  | .error _ => false

/-- `addBlock` with the `fs.writeFileSync` outcome made explicit.  The
source's `_saveChain` wraps the write in a `try/catch` whose handler only
logs (`console.error('Error saving blockchain:', ...)`), so the sealed
block is pushed and returned to the caller no matter how the write went;
only the third component records whether the chain is durably on disk. -/
def addBlockPersist (H : String → String) (difficulty fuel : Nat) (ts : String)
    (chain : List Block) (txs : List Json) (writeResult : Except String Unit) :
    Option (List Block × Block × Bool) :=
  (addBlock H difficulty fuel ts chain txs).map
    (fun r => (r.1, r.2, persisted writeResult))

/-! ## Ledger service (`blockchainService.js`) -/

/-- Election fields handed to `addElection`; `status` is `none` when the
caller omits it (`data.status || 'UPCOMING'`). -/
structure ElectionData where
  title : Json
  description : Json
  constituency : Json
  startTime : Json
  endTime : Json
  status : Option Json

/-- The `ELECTION` transaction built by `addElection`; `electionId` is the
fresh `crypto.randomUUID()`, `ts` the wall-clock timestamps. -/
def electionTx (electionId createdAt ts : String) (d : ElectionData) : Json :=
  .obj [("type", .str "ELECTION"),
        ("data", .obj
          [("id", .str electionId), ("title", d.title),
           ("description", d.description), ("constituency", d.constituency),
           ("startTime", d.startTime), ("endTime", d.endTime),
           ("status", match d.status with
             | some v => if jsFalsy v then .str "UPCOMING" else v
             | none => .str "UPCOMING"),
           ("createdAt", .str createdAt)]),
        ("timestamp", .str ts)]

def addElection (H : String → String) (difficulty fuel : Nat)
    (electionId createdAt ts : String) (d : ElectionData)
    (chain : List Block) : Option (List Block × Block) :=
  addBlock H difficulty fuel ts chain [electionTx electionId createdAt ts d]

/-- The `ELECTION_STATUS_UPDATE` transaction of `updateElectionStatus`. -/
def statusUpdateTx (ts updatedAt electionId newStatus : String) : Json :=
  .obj [("type", .str "ELECTION_STATUS_UPDATE"),
        ("data", .obj
          [("electionId", .str electionId), ("newStatus", .str newStatus),
           ("updatedAt", .str updatedAt)]),
        ("timestamp", .str ts)]

def updateElectionStatus (H : String → String) (difficulty fuel : Nat)
    (ts updatedAt : String) (electionId newStatus : String)
    (chain : List Block) : Option (List Block × Block) :=
  addBlock H difficulty fuel ts chain [statusUpdateTx ts updatedAt electionId newStatus]

def electionFilterOnly : Filter := ⟨some "ELECTION", none, none, none, none, none⟩

def statusUpdateFilterOnly : Filter :=
  ⟨some "ELECTION_STATUS_UPDATE", none, none, none, none, none⟩

def toObjFields : Json → List (String × Json)
  | .obj fs => fs
  | _ => []

/-- `{ ...tx.data, blockIndex: tx.blockIndex, blockHash: tx.blockHash }`. -/
def mkElectionEntry (h : Hit) : Json :=
  let base := Json.obj (toObjFields ((getField h.tx "data").getD .null))
  setField (setField base "blockIndex" (.num h.blockIndex)) "blockHash"
    (.str h.blockHash)

def keyMem (m : List (Option Json × Json)) (k : Option Json) : Bool :=
  m.any (fun e => decide (e.1 = k))

/-- The first `for` loop of `getElections`: a `Map` keyed by `tx.data.id`
in which only the first `ELECTION` record per id is kept.  The key is
`Option Json` because `tx.data.id` may be `undefined`. -/
def buildElectionMap (hits : List Hit) : List (Option Json × Json) :=
  hits.foldl (fun m h =>
    let k := getField2 h.tx "data" "id"
    if keyMem m k then m else m ++ [(k, mkElectionEntry h)]) []

/-- The status-update loop body: `electionMap.get(id).status =
tx.data.newStatus` for a present key (an `undefined` `newStatus` is
modelled as `null`; both fail every later `===` string comparison). -/
def applyStatusUpdate (m : List (Option Json × Json)) (h : Hit) :
    List (Option Json × Json) :=
  let k := getField2 h.tx "data" "electionId"
  if keyMem m k then
    m.map (fun e =>
      if e.1 = k then
        (e.1, setField e.2 "status" ((getField2 h.tx "data" "newStatus").getD .null))
      else e)
  else m

/-- `new Date(v)` as a point on an integer timeline: `pdate` is the
platform's string parsing, numbers are epoch values, `null`/booleans
coerce numerically, everything else is an Invalid Date (`none`). -/
def jsDate (pdate : String → Option Int) (v : Option Json) : Option Int :=
  match v with
  | some (.str s) => pdate s
  | some (.num n) => some n
  | some .null => some 0
  | some (.bool b) => some (if b then 1 else 0)
  | _ => none

/-- `new Date(v) <= now`; any comparison against an Invalid Date is
false. -/
def dleNow (pdate : String → Option Int) (v : Option Json) (now : Int) : Bool :=
  match jsDate pdate v with
  | some t => decide (t ≤ now)
  | none => false

/-- The "auto-update statuses based on current time" loop body of
`getElections`: promote `UPCOMING` to `LIVE` once `startTime <= now`, then
promote `LIVE` to `ENDED` once `endTime <= now`. -/
def overrideStatus (pdate : String → Option Int) (now : Int) (e : Json) : Json :=
  let e1 :=
    if decide (getField e "status" = some (.str "UPCOMING")) &&
        dleNow pdate (getField e "startTime") now
    then setField e "status" (.str "LIVE") else e
  if decide (getField e1 "status" = some (.str "LIVE")) &&
      dleNow pdate (getField e1 "endTime") now
  then setField e1 "status" (.str "ENDED") else e1

/-- The election states of `getElections` before the time-based override:
first `ELECTION` record per id, then all `ELECTION_STATUS_UPDATE` records
applied in chain order (last write wins). -/
def foldedElections (chain : List Block) : List Json :=
  let m := buildElectionMap (searchTransactions chain electionFilterOnly)
  let m2 := (searchTransactions chain statusUpdateFilterOnly).foldl applyStatusUpdate m
  m2.map (fun e => e.2)

structure ElectionFilter where
  constituency : Option String
  status : Option String

def noEFilter : ElectionFilter := ⟨none, none⟩

/-- The trailing `filter.constituency` / `filter.status` filters (again
with JavaScript truthiness on the filter values). -/
def applyElectionFilters (f : ElectionFilter) (es : List Json) : List Json :=
  let es1 :=
    match f.constituency with
    | some s =>
        if s = "" then es
        else es.filter (fun e => decide (getField e "constituency" = some (.str s)))
    | none => es
  match f.status with
  | some s =>
      if s = "" then es1
      else es1.filter (fun e => decide (getField e "status" = some (.str s)))
  | none => es1

/-- `getElections(filter)`. -/
def getElections (pdate : String → Option Int) (now : Int) (chain : List Block)
    (f : ElectionFilter) : List Json :=
  applyElectionFilters f ((foldedElections chain).map (overrideStatus pdate now))

/-- `getElection(electionId)`. -/
def getElection (pdate : String → Option Int) (now : Int) (chain : List Block)
    (electionId : String) : Option Json :=
  (getElections pdate now chain noEFilter).find?
    (fun e => decide (getField e "id" = some (.str electionId)))

/-- Candidate fields handed to `addCandidate`; `age` is the already parsed
integer (`parseInt(data.age)`), `keyPoints` is `none` when omitted
(`data.keyPoints || []`). -/
structure CandidateData where
  name : String
  party : String
  symbol : Json
  age : Int
  education : Json
  experience : Json
  keyPoints : Option Json
  electionId : String

def candidateFilter (electionId : String) : Filter :=
  ⟨some "CANDIDATE", some electionId, none, none, none, none⟩

def dropLeadingWs : List Char → List Char
  | [] => []
  | c :: cs => if c.isWhitespace then dropLeadingWs cs else c :: cs

/-- `s.trim()` over the character list (ASCII whitespace, which covers
every name the service compares). -/
def trimStr (s : String) : String :=
  ⟨(dropLeadingWs (dropLeadingWs s.data).reverse).reverse⟩

/-- `s.toLowerCase().trim()` (ASCII). -/
def normName (s : String) : String :=
  trimStr ⟨s.data.map Char.toLower⟩

/-- The duplicate predicate of `addCandidate`:
`tx.data.name.toLowerCase().trim() === data.name.toLowerCase().trim()` and
the same for `party`.  Every `CANDIDATE` record the service writes has
string `name` and `party`; a non-string field would make the JavaScript
comparison throw, which is modelled as a non-match. -/
def isDuplicateCandidate (tx : Json) (name party : String) : Bool :=
  (match getField2 tx "data" "name" with
    | some (.str s) => normName s == normName name
    | _ => false) &&
  (match getField2 tx "data" "party" with
    | some (.str s) => normName s == normName party
    | _ => false)

/-- The `CANDIDATE` transaction built by `addCandidate`. -/
def candidateTx (candidateId createdAt ts : String) (d : CandidateData) : Json :=
  .obj [("type", .str "CANDIDATE"),
        ("data", .obj
          [("id", .str candidateId), ("name", .str d.name),
           ("party", .str d.party), ("symbol", d.symbol),
           ("age", .num d.age), ("education", d.education),
           ("experience", d.experience),
           ("keyPoints", match d.keyPoints with
             | some v => if jsFalsy v then .arr [] else v
             | none => .arr []),
           ("electionId", .str d.electionId), ("createdAt", .str createdAt)]),
        ("timestamp", .str ts)]

def dupMessage (d : CandidateData) : String :=
  "Duplicate candidate: " ++ d.name ++ " from " ++ d.party ++
    " already exists in this election"

/-- `addCandidate(data)`: the duplicate check runs before any block is
built; a found duplicate throws (`Except.error`) and nothing is sealed or
appended. -/
def addCandidate (H : String → String) (difficulty fuel : Nat)
    (candidateId createdAt ts : String) (d : CandidateData)
    (chain : List Block) : Except String (Option (List Block × Block)) :=
  let existing := searchTransactions chain (candidateFilter d.electionId)
  match existing.find? (fun h => isDuplicateCandidate h.tx d.name d.party) with
  | some _ => .error (dupMessage d)
  | none => .ok (addBlock H difficulty fuel ts chain
      [candidateTx candidateId createdAt ts d])

/-- The `VOTE` transaction built by `castVote`
(`encryptedDetails: data.encryptedDetails || null`). -/
def voteTx (voteId ts userId electionId candidateId receiptHash : String)
    (encryptedDetails : Option Json) : Json :=
  .obj [("type", .str "VOTE"),
        ("data", .obj
          [("id", .str voteId), ("userId", .str userId),
           ("electionId", .str electionId), ("candidateId", .str candidateId),
           ("receiptHash", .str receiptHash),
           ("encryptedDetails", match encryptedDetails with
             | some v => if jsFalsy v then .null else v
             | none => .null),
           ("timestamp", .str ts)]),
        ("timestamp", .str ts)]

/-- `castVote(data)`: builds the vote transaction and appends it —
unconditionally; no double-vote lookup happens here. -/
def castVote (H : String → String) (difficulty fuel : Nat)
    (voteId ts userId electionId candidateId receiptHash : String)
    (encryptedDetails : Option Json) (chain : List Block) :
    Option (List Block × Block) :=
  addBlock H difficulty fuel ts chain
    [voteTx voteId ts userId electionId candidateId receiptHash encryptedDetails]

/-- `hasUserVoted(userId, electionId)`: the first matching `VOTE` record,
or `none`. -/
def hasUserVoted (userId electionId : String) (chain : List Block) : Option Hit :=
  (searchTransactions chain
    ⟨some "VOTE", some electionId, some userId, none, none, none⟩).head?

/-- `getVoteCount(candidateId)`. -/
def getVoteCount (candidateId : String) (chain : List Block) : Nat :=
  (searchTransactions chain
    ⟨some "VOTE", none, none, some candidateId, none, none⟩).length

/-! ## A concrete executable hash stand-in for witnesses -/

def hexDigit (n : Nat) : Char :=
  if n < 10 then Char.ofNat ('0'.toNat + n) else Char.ofNat ('a'.toNat + n - 10)

def natHexAux : Nat → Nat → List Char
  | 0, _ => []
  | f + 1, n => if n = 0 then [] else natHexAux f (n / 16) ++ [hexDigit (n % 16)]

def natHex (n : Nat) : String :=
  if n = 0 then "0" else String.mk (natHexAux 8 n)

/-- A small executable stand-in for the abstract digest functions: a
rolling hash rendered in hex behind a `"0000"` prefix (so the default
difficulty-4 proof-of-work target is met immediately and mining always
terminates). -/
def toyHash (s : String) : String :=
  "0000" ++ natHex (s.data.foldl (fun a c => (a * 31 + c.toNat) % 1000003) 7)

/-! ## Concrete example data for witnesses and counterexamples -/

/-- A freshly created genesis chain under the toy hash (mining succeeds
with zero extra fuel because every toy digest starts with `0000`). -/
def genesisChainEx : List Block := (createGenesisChain toyHash 4 0 "T1" "T2").getD []

def voteAppendEx : Option (List Block × Block) :=
  castVote toyHash 4 0 "vid1" "T3" "u1" "e1" "candA" "r1" none genesisChainEx

/-- Genesis plus one vote block. -/
def chain2Ex : List Block := (voteAppendEx.map Prod.fst).getD []

/-- The persisted file `_saveChain` writes for `chain2Ex`. -/
def fileEx : String := saveFile toyHash chain2Ex

/-- `fileEx` with the single byte at position 1 — the newline between the
opening brace and the `"chain"` key, well outside the signature field —
flipped to a space. -/
def fileExFlipped : String := mutateAt fileEx 1 ' '

/-- `fileEx` with the single byte at position 60 — the `1` of the genesis
timestamp `"T1"` inside the chain payload — flipped to `9`. -/
def tamperedEx : String := mutateAt fileEx 60 '9'

def tamperedJsonEx : Json := (parse tamperedEx).getD .null

def tamperedChainJsonEx : Json := (getField tamperedJsonEx "chain").getD .null

/-! ## Claim theorems -/

/-- C6: `computeRoot` on an empty (or absent) record list returns the
digest of the literal sentinel string `'empty'` — not the digest of the
empty byte string, whenever the hash distinguishes the two — and on a
non-empty list it hashes each record's serialization into a leaf digest
and reduces pairwise level by level, duplicating the last digest of an
odd level (it agrees with the spec-modelled `specReduce`). -/
theorem computeRoot_matches_spec (H : String → String)
    (hne : H "empty" ≠ H "") :
    computeRoot H [] = H "empty" ∧
    computeRoot H [] ≠ H "" ∧
    ∀ txs : List Json, txs ≠ [] →
      computeRoot H txs = specReduce H (txs.map (fun tx => H (stringify tx))) := by
  refine ⟨rfl, hne, ?_⟩
  intro txs htxs
  match txs with
  | t :: ts =>
      simp only [computeRoot, List.isEmpty_cons, Bool.false_eq_true, if_false]
      exact reduceLevels_eq_specReduce H _ _ (le_refl _)

/-- Witness for C6 at the toy hash and a concrete three-record batch. -/
theorem computeRoot_matches_spec_witness :
    computeRoot toyHash [] = toyHash "empty" ∧
    computeRoot toyHash [] ≠ toyHash "" ∧
    computeRoot toyHash [Json.str "a", Json.str "b", Json.str "c"] =
      specReduce toyHash ([Json.str "a", Json.str "b", Json.str "c"].map
        (fun tx => toyHash (stringify tx))) :=
  ⟨(computeRoot_matches_spec toyHash (by decide)).1,
   (computeRoot_matches_spec toyHash (by decide)).2.1,
   (computeRoot_matches_spec toyHash (by decide)).2.2 _ (by decide)⟩

/-- C7: a block returned by the mining loop satisfies the difficulty
prefix condition (its hash starts with `difficulty` zero nibbles) and its
stored hash is exactly the digest recomputed from index, previousHash,
timestamp, merkleRoot and the found nonce — provided the input block's
hash was consistent, as it is at both construction sites (`mkBlock` seals
the initial hash itself). -/
theorem mineBlock_pow_valid (H : String → String) (difficulty : Nat) :
    ∀ (fuel : Nat) (b b2 : Block),
      b.hash = calculateHash H b →
      mineBlock H difficulty fuel b = some b2 →
      powOk difficulty b2.hash = true ∧ b2.hash = calculateHash H b2 := by
  intro fuel
  induction fuel with
  | zero =>
      intro b b2 hcons h
      rw [mineBlock] at h
      by_cases hp : powOk difficulty b.hash
      · rw [if_pos hp] at h
        cases h
        exact ⟨hp, hcons⟩
      · rw [if_neg hp] at h
        simp at h
  | succ f ih =>
      intro b b2 hcons h
      rw [mineBlock] at h
      by_cases hp : powOk difficulty b.hash
      · rw [if_pos hp] at h
        cases h
        exact ⟨hp, hcons⟩
      · rw [if_neg hp] at h
        exact ih (bumpNonce H b) b2 rfl h

/-- Witness for C7: sealing the genesis-shaped block at the default
difficulty 4 under the toy hash. -/
theorem mineBlock_pow_valid_witness :
    powOk 4 (mkBlock toyHash 0 "T0" ([] : List Json) "0").hash = true ∧
    (mkBlock toyHash 0 "T0" ([] : List Json) "0").hash =
      calculateHash toyHash (mkBlock toyHash 0 "T0" ([] : List Json) "0") :=
  mineBlock_pow_valid toyHash 4 0 (mkBlock toyHash 0 "T0" ([] : List Json) "0")
    (mkBlock toyHash 0 "T0" ([] : List Json) "0") (by decide) (by decide)

def doubleVoteSecondEx : Option (List Block × Block) :=
  castVote toyHash 4 0 "vid2" "T4" "u1" "e1" "candB" "r2" none chain2Ex

/-- C1 (code bug): the ledger service's `castVote` performs no double-vote
check at all.  Starting from a fresh genesis chain, a first vote by user
`u1` in election `e1` succeeds and is visible to `hasUserVoted`; a second
`castVote` for the same `(u1, e1)` pair with a different candidate is
nevertheless accepted — no domain error is signalled — and after both
calls the chain has grown by two blocks instead of one. -/
theorem castVote_accepts_double_vote :
    voteAppendEx.isSome = true ∧
    (hasUserVoted "u1" "e1" chain2Ex).isSome = true ∧
    doubleVoteSecondEx.isSome = true ∧
    ((doubleVoteSecondEx.map Prod.fst).getD []).length =
      genesisChainEx.length + 2 := by
  decide

def diskFailAppendEx : Option (List Block × Block × Bool) :=
  addBlockPersist toyHash 4 0 "T3" genesisChainEx
    [voteTx "vid1" "T3" "u1" "e1" "candA" "r1" none]
    (Except.error "EIO: disk write failed")

/-- C3 (code bug): when the persistence write fails, `addBlock` still
returns the sealed block as an ordinary success.  With the write outcome
made explicit, an append whose `fs.writeFileSync` raised is
indistinguishable to the caller from a successful one — same appended
in-memory chain, same returned block, no error — and only the
caller-invisible durability flag records that nothing reached disk. -/
theorem addBlock_reports_success_on_failed_persist :
    diskFailAppendEx = voteAppendEx.map (fun r => (r.1, r.2, false)) ∧
    diskFailAppendEx.isSome = true ∧
    (diskFailAppendEx.map (fun r => r.1)).getD [] = chain2Ex := by
  decide

/-- C2 counterexample: flipping the single byte at position 1 of the
persisted payload — the newline after the opening brace, a byte outside
the signature field — is *not* detected: the HMAC is recomputed over the
re-serialized parsed `chain` field, which is unchanged by whitespace
edits, so `load` keeps the tampered file's 2-block chain instead of
reinitializing to a fresh genesis-only chain of length 1. -/
theorem save_load_whitespace_flip_undetected :
    fileEx.data.get? 1 = some '\n' ∧
    fileExFlipped ≠ fileEx ∧
    fileExFlipped.length = fileEx.length ∧
    verifyFileIntegrity toyHash fileExFlipped = true ∧
    loadChain toyHash toyHash 4 0 "T1" "T2" (some fileExFlipped) = some chain2Ex ∧
    chain2Ex.length = 2 := by
  decide

/-- C2 (amended): after `save` writes the persisted file, any edit of the
payload that changes the canonical re-serialization of the parsed `chain`
field (in particular any byte flip inside the chain data proper, as
opposed to formatting whitespace) while leaving the authentic signature in
place is detected — provided the HMAC distinguishes the two
serializations — and `load` reinitializes to a freshly sealed genesis-only
chain of length 1. -/
theorem load_detects_chain_payload_tampering
    (H mac : String → String) (difficulty fuel : Nat) (ts1 ts2 : String)
    (chain0 : List Block) (content : String) (j cj : Json) (gc : List Block)
    (hparse : parse content = some j)
    (hsig : getField j "signature" = some (.str (mac (chainData chain0))))
    (hsignonempty : mac (chainData chain0) ≠ "")
    (hch : getField j "chain" = some cj)
    (hmism : mac (stringify cj) ≠ mac (chainData chain0))
    (hgen : createGenesisChain H difficulty fuel ts1 ts2 = some gc) :
    verifyFileIntegrity mac content = false ∧
    loadChain H mac difficulty fuel ts1 ts2 (some content) = some gc ∧
    gc.length = 1 := by
  have hfalsy : jsFalsy (Json.str (mac (chainData chain0))) = false := by
    simp [jsFalsy, hsignonempty]
  have hv : verifyFileIntegrity mac content = false := by
    simp only [verifyFileIntegrity, hparse, hsig, hch, hfalsy,
      Bool.false_eq_true, if_false, decide_eq_false_iff_not]
    intro heq
    exact hmism (by injection heq with h; exact h.symm)
  refine ⟨hv, ?_, ?_⟩
  · simp only [loadChain, hv, Bool.false_eq_true, if_false]
    exact hgen
  · unfold createGenesisChain at hgen
    rcases Option.map_eq_some'.mp hgen with ⟨g, _, hgc⟩
    rw [← hgc]
    rfl

/-- Witness for the amended C2: the concrete tampered file (one byte of
the genesis timestamp flipped) is rejected and load yields the fresh
genesis-only chain. -/
theorem load_detects_chain_payload_tampering_witness :
    verifyFileIntegrity toyHash tamperedEx = false ∧
    loadChain toyHash toyHash 4 0 "T1" "T2" (some tamperedEx) =
      some genesisChainEx ∧
    genesisChainEx.length = 1 :=
  load_detects_chain_payload_tampering toyHash toyHash 4 0 "T1" "T2" chain2Ex
    tamperedEx tamperedJsonEx tamperedChainJsonEx genesisChainEx
    (by decide) (by decide) (by decide) (by decide) (by decide) (by decide)

/-- C10: `isChainValid` never reads anything of the block at position 0
except its stored `hash` (used as the expected `previousHash` of block 1),
so two chains whose genesis blocks share the stored hash but differ in
transactions, merkle root, nonce or timestamp validate identically:
alterations confined to the genesis block's contents are never reported. -/
theorem isChainValid_ignores_genesis_content
    (H : String → String) (difficulty : Nat) (g1 g2 : Block)
    (rest : List Block) (hh : g1.hash = g2.hash) :
    isChainValid H difficulty (g1 :: rest) = isChainValid H difficulty (g2 :: rest) := by
  have haux : chainErrorsAux H difficulty 1 g1 rest =
      chainErrorsAux H difficulty 1 g2 rest := by
    cases rest with
    | nil => rfl
    | cons cur r =>
        simp only [chainErrorsAux]
        congr 1
        unfold blockErrors
        rw [hh]
  simp only [isChainValid, haux]

def g1Ex : Block := ⟨0, "ta", [Json.str "x"], "0", "m1", 3, "h0"⟩

def g2Ex : Block := ⟨0, "tb", [], "0", "m2", 7, "h0"⟩

def restEx : List Block := [⟨1, "tc", [], "h0", "m3", 0, "h1"⟩]

/-- Witness for C10: two concrete genesis blocks differing in timestamp,
transactions, merkle root and nonce but sharing the stored hash. -/
theorem isChainValid_ignores_genesis_content_witness :
    isChainValid toyHash 4 (g1Ex :: restEx) = isChainValid toyHash 4 (g2Ex :: restEx) :=
  isChainValid_ignores_genesis_content toyHash 4 g1Ex g2Ex restEx (by decide)

/-- C9: `addCandidate` signals the duplicate-candidate domain error
whenever some `CANDIDATE` record under the same election id already
carries a name and party that match the submitted ones after
lowercase-and-trim normalization; the error is returned before anything
is sealed, so no block is built and the (purely functional) chain is
unchanged. -/
theorem addCandidate_rejects_duplicate
    (H : String → String) (difficulty fuel : Nat)
    (candidateId createdAt ts : String) (d : CandidateData)
    (chain : List Block) (b : Block) (tx : Json) (n p : String)
    (hb : b ∈ chain) (htx : tx ∈ b.transactions)
    (htype : getField tx "type" = some (.str "CANDIDATE"))
    (heid : getField2 tx "data" "electionId" = some (.str d.electionId))
    (hname : getField2 tx "data" "name" = some (.str n))
    (hparty : getField2 tx "data" "party" = some (.str p))
    (hn : normName n = normName d.name)
    (hp : normName p = normName d.party) :
    addCandidate H difficulty fuel candidateId createdAt ts d chain =
      .error (dupMessage d) := by
  have hmatch : txMatches (candidateFilter d.electionId) tx = true := by
    simp only [txMatches, candidateFilter, fieldFilterOk, htype, heid]
    by_cases he : d.electionId = "" <;> simp [he]
  have hhit : (⟨tx, b.index, b.hash, b.timestamp, b.merkleRoot⟩ : Hit) ∈
      searchTransactions chain (candidateFilter d.electionId) := by
    simp only [searchTransactions, List.mem_flatMap]
    exact ⟨b, hb, List.mem_map.mpr ⟨tx, List.mem_filter.mpr ⟨htx, hmatch⟩, rfl⟩⟩
  have hdup : isDuplicateCandidate tx d.name d.party = true := by
    simp only [isDuplicateCandidate, hname, hparty]
    simp [hn, hp]
  have hsome : ((searchTransactions chain (candidateFilter d.electionId)).find?
      (fun h => isDuplicateCandidate h.tx d.name d.party)).isSome = true := by
    rw [List.find?_isSome]
    exact ⟨_, hhit, hdup⟩
  obtain ⟨w, hw⟩ := Option.isSome_iff_exists.mp hsome
  unfold addCandidate
  simp only [hw]

def candDataEx : CandidateData :=
  ⟨"Alice Smith", "Unity Party", .str "sun", 45, .str "PhD", .str "10 years",
    none, "e1"⟩

def candChainEx : List Block :=
  match addCandidate toyHash 4 0 "cand1" "T7" "T8" candDataEx genesisChainEx with
  | .ok (some r) => r.1
  | _ => []

def candBlockEx : Block := candChainEx.getLast?.getD ⟨0, "", [], "", "", 0, ""⟩

def candDupDataEx : CandidateData :=
  ⟨" alice smith", "UNITY PARTY ", .str "moon", 50, .null, .null, none, "e1"⟩

/-- Witness for C9: a chain already holding candidate "Alice Smith" /
"Unity Party" under election `e1` rejects a re-submission that matches
after normalization. -/
theorem addCandidate_rejects_duplicate_witness :
    addCandidate toyHash 4 0 "cand2" "T9" "TA" candDupDataEx candChainEx =
      .error (dupMessage candDupDataEx) :=
  addCandidate_rejects_duplicate toyHash 4 0 "cand2" "T9" "TA" candDupDataEx
    candChainEx candBlockEx (candidateTx "cand1" "T7" "T8" candDataEx)
    "Alice Smith" "Unity Party"
    (by decide) (by decide) (by decide) (by decide) (by decide) (by decide)
    (by decide) (by decide)

theorem find_setFieldList_same (k : String) (v : Json) :
    ∀ fs : List (String × Json),
      (setFieldList fs k v).find? (fun f => f.1 = k) = some (k, v)
  | [] => by simp [setFieldList]
  | (k2, v2) :: rest => by
      by_cases h : k2 = k
      · simp [setFieldList, h]
      · simp only [setFieldList, if_neg h]
        rw [List.find?_cons_of_neg _ (by simp [h])]
        exact find_setFieldList_same k v rest

theorem find_setFieldList_other (k kq : String) (v : Json) (hne : kq ≠ k) :
    ∀ fs : List (String × Json),
      (setFieldList fs k v).find? (fun f => f.1 = kq) =
        fs.find? (fun f => f.1 = kq) := by
  have hkkq : ¬k = kq := Ne.symm hne
  intro fs
  induction fs with
  | nil => simp [setFieldList, List.find?, hkkq]
  | cons head rest ih =>
      obtain ⟨k2, v2⟩ := head
      by_cases h : k2 = k
      · subst h
        simp [setFieldList, List.find?, hkkq]
      · by_cases hq : k2 = kq <;> simp [setFieldList, List.find?, h, hq, hne, ih]

theorem getField_objSet_same (fs : List (String × Json)) (k : String) (v : Json) :
    getField (.obj (setFieldList fs k v)) k = some v := by
  simp [getField, find_setFieldList_same]

theorem getField_objSet_other (fs : List (String × Json)) (k : String) (v : Json)
    (kq : String) (hne : kq ≠ k) :
    getField (.obj (setFieldList fs k v)) kq = getField (.obj fs) kq := by
  simp [getField, find_setFieldList_other k kq v hne]

/-- C8 (amended): the status reported by `getElections` is derived at read
time, but only by promoting the recorded status forward along
UPCOMING → LIVE → ENDED: a recorded UPCOMING becomes LIVE once
`startTime <= now` and ENDED once additionally `endTime <= now`; a
recorded LIVE becomes ENDED once `endTime <= now`; any other recorded
status (e.g. CANCELLED) is reported unchanged even past `endTime`, and a
recorded status is never overridden back to upcoming before `startTime`.
Nothing is written to the chain (`getElections` is a pure read). -/
theorem getElections_status_promotion (pdate : String → Option Int) (now : Int) :
    (∀ chain f, getElections pdate now chain f =
      applyElectionFilters f ((foldedElections chain).map (overrideStatus pdate now))) ∧
    (∀ e, getField e "status" ≠ some (.str "UPCOMING") →
      getField e "status" ≠ some (.str "LIVE") →
      overrideStatus pdate now e = e) ∧
    (∀ e, getField e "status" = some (.str "UPCOMING") →
      dleNow pdate (getField e "startTime") now = false →
      overrideStatus pdate now e = e) ∧
    (∀ e, getField e "status" = some (.str "UPCOMING") →
      dleNow pdate (getField e "startTime") now = true →
      dleNow pdate (getField e "endTime") now = false →
      getField (overrideStatus pdate now e) "status" = some (.str "LIVE")) ∧
    (∀ e, getField e "status" = some (.str "UPCOMING") →
      dleNow pdate (getField e "startTime") now = true →
      dleNow pdate (getField e "endTime") now = true →
      getField (overrideStatus pdate now e) "status" = some (.str "ENDED")) ∧
    (∀ e, getField e "status" = some (.str "LIVE") →
      dleNow pdate (getField e "endTime") now = true →
      getField (overrideStatus pdate now e) "status" = some (.str "ENDED")) ∧
    (∀ e, getField e "status" = some (.str "LIVE") →
      dleNow pdate (getField e "endTime") now = false →
      overrideStatus pdate now e = e) := by
  refine ⟨fun chain f => rfl, ?_, ?_, ?_, ?_, ?_, ?_⟩
  · intro e h1 h2
    simp [overrideStatus, h1, h2]
  · intro e h1 h2
    simp [overrideStatus, h1, h2]
  · intro e h1 h2 h3
    match e with
    | .obj fs =>
        simp [overrideStatus, setField, h1, h2, h3,
          getField_objSet_same, getField_objSet_other fs "status" (.str "LIVE") "endTime" (by decide)]
    | .null | .bool _ | .num _ | .str _ | .arr _ => simp [getField] at h1
  · intro e h1 h2 h3
    match e with
    | .obj fs =>
        simp [overrideStatus, setField, h1, h2, h3,
          getField_objSet_same, getField_objSet_other fs "status" (.str "LIVE") "endTime" (by decide)]
    | .null | .bool _ | .num _ | .str _ | .arr _ => simp [getField] at h1
  · intro e h1 h2
    match e with
    | .obj fs =>
        simp [overrideStatus, setField, h1, h2, getField_objSet_same]
    | .null | .bool _ | .num _ | .str _ | .arr _ => simp [getField] at h1
  · intro e h1 h2
    simp [overrideStatus, h1, h2]

def c8ElectionEx : ElectionData :=
  ⟨.str "Title", .str "Desc", .str "C1", .str "S", .str "E", some (.str "LIVE")⟩

/-- Genesis plus one election created with recorded status `LIVE`, start
time `"S"` and end time `"E"`. -/
def c8ChainEx : List Block :=
  ((addElection toyHash 4 0 "elec1" "T5" "T6" c8ElectionEx genesisChainEx).map
    Prod.fst).getD []

/-- A concrete model of `Date.parse`: `"S"` is epoch 100, `"E"` epoch 200. -/
def pdateEx : String → Option Int :=
  fun s => if s = "S" then some 100 else if s = "E" then some 200 else none

/-- C8 counterexample: at wall-clock time 10, before the election's start
time (epoch 100), `getElections` still reports the recorded status `LIVE`
— the derived view never overrides a status back to `UPCOMING`, contrary
to the claim that a current time before `start_time` is always reported
as upcoming. -/
theorem getElections_no_upcoming_override :
    ((getElections pdateEx 10 c8ChainEx noEFilter).map
      (fun e => getField e "status")) = [some (Json.str "LIVE")] ∧
    ((getElections pdateEx 10 c8ChainEx noEFilter).map
      (fun e => getField e "startTime")) = [some (Json.str "S")] ∧
    pdateEx "S" = some 100 ∧
    (10 : Int) < 100 := by
  decide

def c8LiveEndedEx : Json := .obj [("status", .str "LIVE"), ("endTime", .str "E")]

/-- Witness for the amended C8: a recorded `LIVE` election whose end time
(epoch 200) has passed at `now = 250` is reported `ENDED`. -/
theorem getElections_status_promotion_witness :
    getField (overrideStatus pdateEx 250 c8LiveEndedEx) "status" =
      some (Json.str "ENDED") :=
  (getElections_status_promotion pdateEx 250).2.2.2.2.2.1 c8LiveEndedEx
    (by decide) (by decide)

/-- Check (a): the recomputed digest of the stored fields equals the
stored hash. -/
def sealOk (H : String → String) (cur : Block) : Prop :=
  cur.hash = calculateHash H cur

/-- Check (b): `previousHash` equals the prior block's stored hash. -/
def linkOk (prev cur : Block) : Prop := cur.previousHash = prev.hash

/-- Check (c): the stored hash meets the difficulty target. -/
def powProp (difficulty : Nat) (cur : Block) : Prop :=
  powOk difficulty cur.hash = true

/-- Check (d): the stored merkle root equals the root recomputed from the
block's transactions. -/
def merkleOk (H : String → String) (cur : Block) : Prop :=
  cur.merkleRoot = computeRoot H cur.transactions

/-- How many of the four checks fail for a consecutive block pair. -/
def failedChecks (H : String → String) (difficulty : Nat) (prev cur : Block) : Nat :=
  (if cur.hash = calculateHash H cur then 0 else 1) +
  (if cur.previousHash = prev.hash then 0 else 1) +
  (if powOk difficulty cur.hash then 0 else 1) +
  (if cur.merkleRoot = computeRoot H cur.transactions then 0 else 1)

theorem blockErrors_length (H : String → String) (difficulty i : Nat)
    (prev cur : Block) :
    (blockErrors H difficulty i prev cur).length = failedChecks H difficulty prev cur := by
  unfold blockErrors failedChecks
  split_ifs <;> simp_all

theorem blockErrors_empty_iff (H : String → String) (difficulty i : Nat)
    (prev cur : Block) :
    blockErrors H difficulty i prev cur = [] ↔
      (sealOk H cur ∧ linkOk prev cur ∧ powProp difficulty cur ∧ merkleOk H cur) := by
  unfold blockErrors sealOk linkOk powProp merkleOk
  split_ifs <;> simp_all

theorem chainErrorsAux_length (H : String → String) (difficulty : Nat) :
    ∀ (rest : List Block) (i : Nat) (prev : Block),
      (chainErrorsAux H difficulty i prev rest).length =
        (((prev :: rest).zip rest).map
          (fun q => failedChecks H difficulty q.1 q.2)).sum := by
  intro rest
  induction rest with
  | nil => intro i prev; simp [chainErrorsAux]
  | cons cur rest2 ih =>
      intro i prev
      simp [chainErrorsAux, List.zip_cons_cons, blockErrors_length, ih]

theorem chainErrorsAux_empty_iff (H : String → String) (difficulty : Nat) :
    ∀ (rest : List Block) (prev : Block) (i : Nat),
      chainErrorsAux H difficulty i prev rest = [] ↔
        (∀ j (hj : j + 1 < (prev :: rest).length),
          sealOk H ((prev :: rest).get ⟨j + 1, hj⟩) ∧
          linkOk ((prev :: rest).get ⟨j, Nat.lt_of_succ_lt hj⟩)
            ((prev :: rest).get ⟨j + 1, hj⟩) ∧
          powProp difficulty ((prev :: rest).get ⟨j + 1, hj⟩) ∧
          merkleOk H ((prev :: rest).get ⟨j + 1, hj⟩)) := by
  intro rest
  induction rest with
  | nil =>
      intro prev i
      constructor
      · intro _ j hj
        simp only [List.length_cons, List.length_nil] at hj
        omega
      · intro _
        rfl
  | cons cur rest2 ih =>
      intro prev i
      have hstep : chainErrorsAux H difficulty i prev (cur :: rest2) =
          blockErrors H difficulty i prev cur ++
            chainErrorsAux H difficulty (i + 1) cur rest2 := rfl
      rw [hstep, List.append_eq_nil, blockErrors_empty_iff, ih cur (i + 1)]
      constructor
      · rintro ⟨hb, hrest⟩ j hj
        match j with
        | 0 => exact hb
        | j' + 1 =>
            exact hrest j' (by
              simp only [List.length_cons] at hj ⊢
              omega)
      · intro hall
        refine ⟨hall 0 (by simp only [List.length_cons]; omega), ?_⟩
        intro j hj
        exact hall (j + 1) (by
          simp only [List.length_cons] at hj ⊢
          omega)

/-- C4: `isChainValid` checks, for every block after position 0, (a) the
recomputed hash against the stored hash, (b) the `previousHash` linkage,
(c) the difficulty prefix of the stored hash and (d) the recomputed merkle
root against the stored one; it pushes one error description per violated
check across all blocks without short-circuiting (the error count is the
sum of the per-pair violation counts over the whole chain), and the
returned flag is true exactly when the collected error list is empty,
equivalently when every check of every consecutive pair passes. -/
theorem isChainValid_collects_all_violations (H : String → String)
    (difficulty : Nat) (chain : List Block) :
    ((isChainValid H difficulty chain).1 = true ↔
      (isChainValid H difficulty chain).2 = []) ∧
    ((isChainValid H difficulty chain).1 = true ↔
      ∀ i (h : i + 1 < chain.length),
        sealOk H (chain.get ⟨i + 1, h⟩) ∧
        linkOk (chain.get ⟨i, Nat.lt_of_succ_lt h⟩) (chain.get ⟨i + 1, h⟩) ∧
        powProp difficulty (chain.get ⟨i + 1, h⟩) ∧
        merkleOk H (chain.get ⟨i + 1, h⟩)) ∧
    ((isChainValid H difficulty chain).2.length =
      ((chain.zip chain.tail).map
        (fun q => failedChecks H difficulty q.1 q.2)).sum) := by
  refine ⟨?_, ?_, ?_⟩
  · cases chain with
    | nil => simp [isChainValid]
    | cons b rest => simp [isChainValid, List.isEmpty_iff]
  · cases chain with
    | nil =>
        constructor
        · intro _ i h
          simp only [List.length_nil] at h
          omega
        · intro _
          rfl
    | cons b rest =>
        have heq := chainErrorsAux_empty_iff H difficulty rest b 1
        constructor
        · intro hv
          exact heq.mp (by
            have : (chainErrorsAux H difficulty 1 b rest).isEmpty = true := hv
            exact List.isEmpty_iff.mp this)
        · intro hall
          show (chainErrorsAux H difficulty 1 b rest).isEmpty = true
          rw [List.isEmpty_iff]
          exact heq.mpr hall
  · cases chain with
    | nil => simp [isChainValid]
    | cons b rest =>
        have := chainErrorsAux_length H difficulty rest 1 b
        simpa [isChainValid] using this

/-- The mining loop only touches `nonce` and `hash`; every other block
field survives unchanged. -/
theorem mineBlock_fields (H : String → String) (difficulty : Nat) :
    ∀ (fuel : Nat) (b b2 : Block), mineBlock H difficulty fuel b = some b2 →
      b2.index = b.index ∧ b2.timestamp = b.timestamp ∧
      b2.transactions = b.transactions ∧ b2.previousHash = b.previousHash ∧
      b2.merkleRoot = b.merkleRoot := by
  intro fuel
  induction fuel with
  | zero =>
      intro b b2 h
      rw [mineBlock] at h
      by_cases hp : powOk difficulty b.hash
      · rw [if_pos hp] at h
        cases h
        exact ⟨rfl, rfl, rfl, rfl, rfl⟩
      · rw [if_neg hp] at h
        simp at h
  | succ f ih =>
      intro b b2 h
      rw [mineBlock] at h
      by_cases hp : powOk difficulty b.hash
      · rw [if_pos hp] at h
        cases h
        exact ⟨rfl, rfl, rfl, rfl, rfl⟩
      · rw [if_neg hp] at h
        exact ih (bumpNonce H b) b2 h

theorem sealBlock_some (H : String → String) (difficulty fuel index : Nat)
    (ts : String) (txs : List Json) (prev : String) (b : Block)
    (h : sealBlock H difficulty fuel index ts txs prev = some b) :
    b.index = index ∧ b.previousHash = prev := by
  unfold sealBlock at h
  have hf := mineBlock_fields H difficulty fuel _ b h
  exact ⟨hf.1, hf.2.2.2.1⟩

/-- What a successful `addBlock` did: it appended exactly one block, whose
index is the predecessor's plus one and whose `previousHash` is the
predecessor's stored hash. -/
theorem addBlock_some (H : String → String) (difficulty fuel : Nat) (ts : String)
    (chain : List Block) (txs : List Json) (c2 : List Block) (b : Block)
    (h : addBlock H difficulty fuel ts chain txs = some (c2, b)) :
    ∃ prev, chain.getLast? = some prev ∧ c2 = chain ++ [b] ∧
      b.index = prev.index + 1 ∧ b.previousHash = prev.hash := by
  unfold addBlock getLatestBlock at h
  cases hl : chain.getLast? with
  | none => rw [hl] at h; simp at h
  | some prev =>
      rw [hl] at h
      dsimp only at h
      cases hs : sealBlock H difficulty fuel (prev.index + 1) ts txs prev.hash with
      | none => rw [hs] at h; simp at h
      | some nb =>
          rw [hs] at h
          obtain ⟨h1, h2⟩ := Prod.mk.inj (Option.some.inj h)
          subst h2
          have hsb := sealBlock_some H difficulty fuel (prev.index + 1) ts txs
            prev.hash nb hs
          exact ⟨prev, rfl, h1.symm, hsb.1, hsb.2⟩

/-- C5: every chain produced by normal operation (genesis creation
followed by any sequence of `addBlock` calls) has contiguous indices
starting at 0, each block's `previousHash` equal to the prior block's
stored hash, and the only mutation `addBlock` performs is appending one
block at the end — the existing prefix is never edited or shortened. -/
theorem reachable_chain_linkage (H : String → String) (difficulty : Nat)
    (c : List Block) (hc : Reachable H difficulty c) :
    (∀ i (h : i < c.length), (c.get ⟨i, h⟩).index = i) ∧
    (∀ i (h : i + 1 < c.length),
      (c.get ⟨i + 1, h⟩).previousHash = (c.get ⟨i, Nat.lt_of_succ_lt h⟩).hash) ∧
    (∀ txs fuel ts c2 b, addBlock H difficulty fuel ts c txs = some (c2, b) →
      c2 = c ++ [b]) := by
  have happend : ∀ (chain : List Block) (txs : List Json) (fuel : Nat)
      (ts : String) (c2 : List Block) (b : Block),
      addBlock H difficulty fuel ts chain txs = some (c2, b) →
      c2 = chain ++ [b] := by
    intro chain txs fuel ts c2 b h
    obtain ⟨prev, _, hc2, _, _⟩ := addBlock_some H difficulty fuel ts chain txs c2 b h
    exact hc2
  induction hc with
  | genesis fuel ts1 ts2 c0 hg =>
      rcases Option.map_eq_some'.mp hg with ⟨g, hgseal, hc0⟩
      subst hc0
      refine ⟨?_, ?_, fun txs fuel2 ts3 c2 b h => happend _ txs fuel2 ts3 c2 b h⟩
      · intro i h
        simp only [List.length_singleton] at h
        have hi : i = 0 := by omega
        subst hi
        exact (sealBlock_some H difficulty fuel 0 ts1 [genesisTx ts2] "0" g hgseal).1
      · intro i h
        simp only [List.length_singleton] at h
        omega
  | step c0 txs fuel ts c2 b hr hab ih =>
      obtain ⟨hidx, hlink, _⟩ := ih
      obtain ⟨prev, hlast, hc2, hbidx, hbprev⟩ :=
        addBlock_some H difficulty fuel ts c0 txs c2 b hab
      subst hc2
      have hne : c0 ≠ [] := by
        intro hnil
        rw [hnil] at hlast
        simp at hlast
      have hlen : 0 < c0.length := List.length_pos.mpr hne
      have hprevget : prev = c0.get ⟨c0.length - 1, by omega⟩ := by
        rw [List.getLast?_eq_getElem? c0,
          List.getElem?_eq_getElem (by omega : c0.length - 1 < c0.length)] at hlast
        exact (Option.some.inj hlast).symm
      have hprevidx : prev.index = c0.length - 1 := by
        rw [hprevget]
        exact hidx (c0.length - 1) (by omega)
      refine ⟨?_, ?_, fun txs2 fuel2 ts2 c3 b2 h => happend _ txs2 fuel2 ts2 c3 b2 h⟩
      · intro i h
        simp only [List.length_append, List.length_singleton] at h
        by_cases hi : i < c0.length
        · have : (c0 ++ [b]).get ⟨i, by simp; omega⟩ = c0.get ⟨i, hi⟩ := by
            simp [List.getElem_append_left hi]
          rw [this]
          exact hidx i hi
        · have hieq : i = c0.length := by omega
          subst hieq
          have hgb : (c0 ++ [b]).get ⟨c0.length, by simp⟩ = b := by
            simp [List.getElem_concat_length]
          rw [hgb, hbidx, hprevidx]
          omega
      · intro i h
        simp only [List.length_append, List.length_singleton] at h
        by_cases hi : i + 1 < c0.length
        · have e1 : (c0 ++ [b]).get ⟨i + 1, by simp; omega⟩ = c0.get ⟨i + 1, hi⟩ := by
            simp [List.getElem_append_left hi]
          have e2 : (c0 ++ [b]).get ⟨i, by simp; omega⟩ =
              c0.get ⟨i, Nat.lt_of_succ_lt hi⟩ := by
            simp [List.getElem_append_left (Nat.lt_of_succ_lt hi)]
          rw [e1, e2]
          exact hlink i hi
        · have hieq : i + 1 = c0.length := by omega
          have e1 : (c0 ++ [b]).get ⟨i + 1, by simp; omega⟩ = b := by
            have hfin : (⟨i + 1, by simp; omega⟩ : Fin (c0 ++ [b]).length) =
                ⟨c0.length, by simp⟩ := Fin.ext hieq
            rw [hfin]
            simp [List.getElem_concat_length]
          have e2 : (c0 ++ [b]).get ⟨i, by simp; omega⟩ = prev := by
            have hi0 : i < c0.length := by omega
            have hget : (c0 ++ [b]).get ⟨i, by simp; omega⟩ = c0.get ⟨i, hi0⟩ := by
              simp [List.getElem_append_left hi0]
            have hfin2 : (⟨i, hi0⟩ : Fin c0.length) = ⟨c0.length - 1, by omega⟩ :=
              Fin.ext (by show i = c0.length - 1; omega)
            rw [hget, hfin2]
            exact hprevget.symm
          rw [e1, e2]
          exact hbprev

def voteBlockEx : Block := (voteAppendEx.map Prod.snd).getD ⟨0, "", [], "", "", 0, ""⟩

theorem chain2Ex_reachable : Reachable toyHash 4 chain2Ex :=
  Reachable.step genesisChainEx
    [voteTx "vid1" "T3" "u1" "e1" "candA" "r1" none] 0 "T3" chain2Ex voteBlockEx
    (Reachable.genesis 0 "T1" "T2" genesisChainEx (by decide)) (by decide)

/-- Witness for C5 on the concrete two-block chain reached by genesis
creation plus one `castVote` append. -/
theorem reachable_chain_linkage_witness :
    (chain2Ex.get ⟨1, by decide⟩).previousHash = (chain2Ex.get ⟨0, by decide⟩).hash ∧
    (chain2Ex.get ⟨0, by decide⟩).index = 0 ∧
    (chain2Ex.get ⟨1, by decide⟩).index = 1 :=
  ⟨(reachable_chain_linkage toyHash 4 chain2Ex chain2Ex_reachable).2.1 0 (by decide),
   (reachable_chain_linkage toyHash 4 chain2Ex chain2Ex_reachable).1 0 (by decide),
   (reachable_chain_linkage toyHash 4 chain2Ex chain2Ex_reachable).1 1 (by decide)⟩

end VoteGuard
